import Mathlib

/-!
Verification of the magical_christmas_tree particle choreography core.

Shallow embedding of `src/components/ThreeScene.tsx`: the `Particle` class
(constructor and per-tick `update`), the photo-intake function
`addPhotoToScene`, and the three layout passes (TREE, SCATTER, FOCUS) run by
the mode effect.  Randomness (`Math.random()` draws) is made explicit as
real-valued parameters / streams, each draw understood to lie in `[0, 1)`.
Orientation smoothing (`quaternion.slerp`, line 46 of the source) is the one
part of `update` not modelled: no property below concerns it, and it acts on
a derived quaternion, not on the stored Euler target.
-/

namespace ChristmasTree

/-- A 3-component real vector, mirroring `THREE.Vector3`. -/
structure Vec3 where
  x : ℝ
  y : ℝ
  z : ℝ

/-- Euler angles, mirroring `THREE.Euler` (order is irrelevant to the claims). -/
structure Euler3 where
  x : ℝ
  y : ℝ
  z : ℝ

/-- Componentwise `THREE.Vector3.lerp`: `this += (v - this) * alpha`. -/
def Vec3.lerp (a b : Vec3) (alpha : ℝ) : Vec3 :=
  ⟨a.x + (b.x - a.x) * alpha, a.y + (b.y - a.y) * alpha, a.z + (b.z - a.z) * alpha⟩

/-- Componentwise `THREE.Vector3.add`. -/
def Vec3.add (a b : Vec3) : Vec3 :=
  ⟨a.x + b.x, a.y + b.y, a.z + b.z⟩

/-- Euclidean distance between two vectors. -/
noncomputable def Vec3.dist (a b : Vec3) : ℝ :=
  Real.sqrt ((a.x - b.x) ^ 2 + (a.y - b.y) ^ 2 + (a.z - b.z) ^ 2)

/-- Euclidean norm (distance from the origin). -/
noncomputable def Vec3.norm (a : Vec3) : ℝ :=
  Real.sqrt (a.x ^ 2 + a.y ^ 2 + a.z ^ 2)

/-- Horizontal distance from the vertical (y) axis. -/
noncomputable def Vec3.axisDist (a : Vec3) : ℝ :=
  Real.sqrt (a.x ^ 2 + a.z ^ 2)

/-- The particle type tag (SHAPE, PHOTO, DUST, STAR or NEEDLE in the source). -/
inductive PType where
  | SHAPE | PHOTO | DUST | STAR | NEEDLE
deriving DecidableEq, Repr

/-- The application mode (`AppMode` from `src/types.ts`). -/
inductive AppMode where
  | TREE | SCATTER | FOCUS
deriving DecidableEq, Repr

/-- The `Particle` class state: the mesh's current transform (`pos`, `rot`,
`scale`), the target transform, the type tag, and the per-particle random
parameters drawn in the constructor. -/
structure Particle where
  pos : Vec3
  rot : Euler3
  scale : Vec3
  type : PType
  targetPos : Vec3
  targetRot : Euler3
  targetScale : Vec3
  twinkleOffset : ℝ
  twinkleSpeed : ℝ
  velocity : Vec3
  baseScale : ℝ

/-- The `Particle` constructor (ThreeScene.tsx lines 27-41): targets are
copied from the mesh's current transform, `baseScale` is `mesh.scale.x`, and
`twinkleOffset`, `twinkleSpeed`, `velocity` are derived from five
`Math.random()` draws `r1 .. r5`. -/
noncomputable def Particle.mk0 (pos : Vec3) (rot : Euler3) (scale : Vec3)
    (type : PType) (r1 r2 r3 r4 r5 : ℝ) : Particle where
  pos := pos
  rot := rot
  scale := scale
  type := type
  targetPos := pos
  targetRot := rot
  targetScale := scale
  twinkleOffset := r1 * Real.pi * 2
  twinkleSpeed := 0.5 + r2 * 2
  velocity := ⟨(r3 - 0.5) * 0.02, -0.01 - r4 * 0.03, (r5 - 0.5) * 0.02⟩
  baseScale := scale.x

/-- The method `Particle.update` (ThreeScene.tsx lines 43-65): exponential smoothing of
position (and scale) toward the targets, the twinkle envelope for
SHAPE/DUST/STAR, the DUST drift with height recycling when not in FOCUS, and
the SCATTER tumbling of the current rotation.  Orientation slerp is omitted
(see the file header). -/
noncomputable def Particle.update (p : Particle) (mode : AppMode) (time : ℝ) :
    Particle :=
  let lerpFactor : ℝ := if mode = AppMode.FOCUS then 0.08 else 0.05
  let pos1 := p.pos.lerp p.targetPos lerpFactor
  let scale1 :=
    if p.type = PType.SHAPE ∨ p.type = PType.DUST ∨ p.type = PType.STAR then
      let s := p.baseScale *
        (0.8 + Real.sin (time * p.twinkleSpeed + p.twinkleOffset) * 0.3)
      p.scale.lerp ⟨s, s, s⟩ 0.1
    else
      p.scale.lerp p.targetScale lerpFactor
  let targetPos1 :=
    if p.type = PType.DUST ∧ mode ≠ AppMode.FOCUS then
      let tp := p.targetPos.add p.velocity
      if tp.y < -20 then { tp with y := 30 } else tp
    else p.targetPos
  let rot1 :=
    if mode = AppMode.SCATTER then
      ⟨p.rot.x + p.velocity.x * 5, p.rot.y + p.velocity.y * 5, p.rot.z⟩
    else p.rot
  { p with pos := pos1, scale := scale1, targetPos := targetPos1, rot := rot1 }

/-- Iterated ticks: `runUpdates mode tseq p n` is the particle after `n`
calls of `update`, the `k`-th call receiving elapsed time `tseq k`. -/
noncomputable def runUpdates (mode : AppMode) (tseq : ℕ → ℝ) (p : Particle) :
    ℕ → Particle
  | 0 => p
  | n + 1 => (runUpdates mode tseq p n).update mode (tseq n)

/-- The function `addPhotoToScene` (ThreeScene.tsx lines 75-90): builds a frame mesh at a
random position `((rx-0.5)*50, (ry-0.5)*50, (rz-0.5)*50)` with default
rotation and unit scale, wraps it in a PHOTO `Particle` (whose constructor
consumes five more draws `c1 .. c5`) and pushes it onto the pool. -/
noncomputable def addPhotoToScene (rx ry rz c1 c2 c3 c4 c5 : ℝ)
    (pool : List Particle) : List Particle :=
  pool ++ [Particle.mk0 ⟨(rx - 0.5) * 50, (ry - 0.5) * 50, (rz - 0.5) * 50⟩
    ⟨0, 0, 0⟩ ⟨1, 1, 1⟩ PType.PHOTO c1 c2 c3 c4 c5]

/-- The sublist of particles of a given type, in pool order (the partition the
layout effect obtains with `filter`). -/
def filterType (ty : PType) : List Particle → List Particle
  | [] => []
  | p :: ps => if p.type = ty then p :: filterType ty ps else filterType ty ps

/-- The number of particles of a given type in the pool. -/
def countType (ty : PType) (pool : List Particle) : ℕ :=
  (filterType ty pool).length

/-- TREE layout for the needle at partition index `i` of `count`
(ThreeScene.tsx lines 227-233): `t = i/count`, radius `9*(1-t)^1.3`, angle
`t*50π`, height `t*28-12`; the target rotation gets two fresh random tilts
`r1`, `r2` around the spiral angle. -/
noncomputable def treeNeedle (count i : ℕ) (r1 r2 : ℝ) (p : Particle) :
    Particle :=
  let t : ℝ := (i : ℝ) / (count : ℝ)
  let radius : ℝ := 9 * (1 - t) ^ (1.3 : ℝ)
  let angle : ℝ := t * 50 * Real.pi
  { p with
    targetPos := ⟨Real.cos angle * radius, t * 28 - 12, Real.sin angle * radius⟩
    targetRot := ⟨r1, angle, r2⟩ }

/-- TREE layout for the ornament (SHAPE) at partition index `i` of `count`
(ThreeScene.tsx lines 234-239): radius `9.5*(1-t)^1.3`, angle `t*35π + π`,
height `t*28-12`; only the target position is written. -/
noncomputable def treeShape (count i : ℕ) (p : Particle) : Particle :=
  let t : ℝ := (i : ℝ) / (count : ℝ)
  let radius : ℝ := 9.5 * (1 - t) ^ (1.3 : ℝ)
  let angle : ℝ := t * 35 * Real.pi + Real.pi
  { p with
    targetPos := ⟨Real.cos angle * radius, t * 28 - 12, Real.sin angle * radius⟩ }

/-- TREE layout for the photo at partition index `i` of `count`
(ThreeScene.tsx lines 240-246): ring angle `a = (i/count)*2π`, ring radius 12
(constrained display) or 16, random height `2 + r*5`, yaw `-a + π`, uniform
target scale 0.6. -/
noncomputable def treePhoto (isMobile : Bool) (count i : ℕ) (r : ℝ)
    (p : Particle) : Particle :=
  let a : ℝ := ((i : ℝ) / (count : ℝ)) * Real.pi * 2
  let rad : ℝ := if isMobile then 12 else 16
  { p with
    targetPos := ⟨Real.cos a * rad, 2 + r * 5, Real.sin a * rad⟩
    targetRot := ⟨0, -a + Real.pi, 0⟩
    targetScale := ⟨0.6, 0.6, 0.6⟩ }

/-- The TREE layout pass over the pool.  `cN`, `cS`, `cP` are the partition
sizes; `iN`, `iS`, `iP` the running partition indices; `starDone` records
whether the first STAR (the one `find` returns) has been restaged; `rN` and
`rP` are the random streams for needle tilts and photo heights. -/
noncomputable def layoutTreeAux (isMobile : Bool) (cN cS cP : ℕ)
    (rN : ℕ → ℝ × ℝ) (rP : ℕ → ℝ) :
    ℕ → ℕ → ℕ → Bool → List Particle → List Particle
  | _, _, _, _, [] => []
  | iN, iS, iP, starDone, p :: ps =>
    if p.type = PType.NEEDLE then
      treeNeedle cN iN (rN iN).1 (rN iN).2 p ::
        layoutTreeAux isMobile cN cS cP rN rP (iN + 1) iS iP starDone ps
    else if p.type = PType.SHAPE then
      treeShape cS iS p ::
        layoutTreeAux isMobile cN cS cP rN rP iN (iS + 1) iP starDone ps
    else if p.type = PType.PHOTO then
      treePhoto isMobile cP iP (rP iP) p ::
        layoutTreeAux isMobile cN cS cP rN rP iN iS (iP + 1) starDone ps
    else if p.type = PType.STAR ∧ starDone = false then
      { p with targetPos := ⟨0, 16.5, 0⟩ } ::
        layoutTreeAux isMobile cN cS cP rN rP iN iS iP true ps
    else
      p :: layoutTreeAux isMobile cN cS cP rN rP iN iS iP starDone ps

/-- The TREE layout pass (ThreeScene.tsx lines 225-246): needles, shapes and
photos are restaged by partition index, the first STAR is pinned to the apex
`(0, 16.5, 0)`, DUST is untouched. -/
noncomputable def layoutTree (isMobile : Bool) (rN : ℕ → ℝ × ℝ) (rP : ℕ → ℝ)
    (pool : List Particle) : List Particle :=
  layoutTreeAux isMobile (countType PType.NEEDLE pool)
    (countType PType.SHAPE pool) (countType PType.PHOTO pool) rN rP 0 0 0
    false pool

/-- SCATTER-mode target for one particle (ThreeScene.tsx lines 247-253) from
its three draws: shell radius `10 + 25u`, azimuth `t*2π`, polar angle
`arccos (2v - 1)`. -/
noncomputable def scatterTarget (u t v : ℝ) : Vec3 :=
  let r : ℝ := 10 + u * 25
  let theta : ℝ := t * Real.pi * 2
  let phi : ℝ := Real.arccos (2 * v - 1)
  ⟨r * Real.sin phi * Real.cos theta, r * Real.sin phi * Real.sin theta,
    r * Real.cos phi⟩

/-- The SCATTER layout pass: every particle, of every type, gets an
independent shell point from its own draws `rnd i = (u, t, v)`. -/
noncomputable def layoutScatterAux (rnd : ℕ → ℝ × ℝ × ℝ) :
    ℕ → List Particle → List Particle
  | _, [] => []
  | i, p :: ps =>
    { p with targetPos := scatterTarget (rnd i).1 (rnd i).2.1 (rnd i).2.2 } ::
      layoutScatterAux rnd (i + 1) ps

/-- The SCATTER layout pass over the pool (ThreeScene.tsx lines 247-253). -/
noncomputable def layoutScatter (rnd : ℕ → ℝ × ℝ × ℝ)
    (pool : List Particle) : List Particle :=
  layoutScatterAux rnd 0 pool

/-- FOCUS layout for the photo at partition index `i` (ThreeScene.tsx lines
256-264): the chosen photo flies to `(0, 3, 30|35)` with neutral orientation
and enlarged scale; every other photo is pushed to a random point in the
back plane `z = -40`. -/
def focusPhoto (isMobile : Bool) (focusIdx i : ℕ) (rx ry : ℝ)
    (p : Particle) : Particle :=
  if i = focusIdx then
    { p with
      targetPos := ⟨0, 3, if isMobile then 30 else 35⟩
      targetRot := ⟨0, 0, 0⟩
      targetScale := ⟨if isMobile then 3.5 else 5.5,
        if isMobile then 3.5 else 5.5, 5.5⟩ }
  else
    { p with targetPos := ⟨(rx - 0.5) * 80, (ry - 0.5) * 80, -40⟩ }

/-- The FOCUS layout pass over the pool: photos are restaged around the
chosen index, the first STAR is parked at `(0, 40, -50)`, and every other
particle is left alone. -/
def layoutFocusAux (isMobile : Bool) (focusIdx : ℕ) (rnd : ℕ → ℝ × ℝ) :
    ℕ → Bool → List Particle → List Particle
  | _, _, [] => []
  | iP, starDone, p :: ps =>
    if p.type = PType.PHOTO then
      focusPhoto isMobile focusIdx iP (rnd iP).1 (rnd iP).2 p ::
        layoutFocusAux isMobile focusIdx rnd (iP + 1) starDone ps
    else if p.type = PType.STAR ∧ starDone = false then
      { p with targetPos := ⟨0, 40, -50⟩ } ::
        layoutFocusAux isMobile focusIdx rnd iP true ps
    else
      p :: layoutFocusAux isMobile focusIdx rnd iP starDone ps

/-- The FOCUS layout pass (ThreeScene.tsx lines 254-266). -/
def layoutFocus (isMobile : Bool) (focusIdx : ℕ) (rnd : ℕ → ℝ × ℝ)
    (pool : List Particle) : List Particle :=
  layoutFocusAux isMobile focusIdx rnd 0 false pool

/-! ## Basic lemmas about the integrator -/

lemma Vec3.dist_nonneg (a b : Vec3) : 0 ≤ a.dist b :=
  Real.sqrt_nonneg _

lemma Vec3.dist_lerp (a b : Vec3) {f : ℝ} (hf : f ≤ 1) :
    (a.lerp b f).dist b = (1 - f) * a.dist b := by
  unfold Vec3.lerp Vec3.dist
  have h : (a.x + (b.x - a.x) * f - b.x) ^ 2 + (a.y + (b.y - a.y) * f - b.y) ^ 2
      + (a.z + (b.z - a.z) * f - b.z) ^ 2
      = (1 - f) ^ 2 * ((a.x - b.x) ^ 2 + (a.y - b.y) ^ 2 + (a.z - b.z) ^ 2) := by
    ring
  rw [h, Real.sqrt_mul (sq_nonneg _), Real.sqrt_sq (by linarith)]

lemma Particle.update_type (p : Particle) (mode : AppMode) (t : ℝ) :
    (p.update mode t).type = p.type := rfl

lemma Particle.update_pos (p : Particle) (mode : AppMode) (t : ℝ) :
    (p.update mode t).pos
      = p.pos.lerp p.targetPos (if mode = AppMode.FOCUS then 0.08 else 0.05) :=
  rfl

lemma Particle.update_targetPos_fixed (p : Particle) (mode : AppMode) (t : ℝ)
    (h : p.type ≠ PType.DUST ∨ mode = AppMode.FOCUS) :
    (p.update mode t).targetPos = p.targetPos := by
  have hcond : ¬(p.type = PType.DUST ∧ mode ≠ AppMode.FOCUS) := by tauto
  simp [Particle.update, hcond]

lemma runUpdates_invariants (mode : AppMode) (tseq : ℕ → ℝ) (p : Particle)
    (h : p.type ≠ PType.DUST ∨ mode = AppMode.FOCUS) (n : ℕ) :
    (runUpdates mode tseq p n).targetPos = p.targetPos
      ∧ (runUpdates mode tseq p n).type = p.type := by
  induction n with
  | zero => exact ⟨rfl, rfl⟩
  | succ n ih =>
    have h2 : (runUpdates mode tseq p n).type ≠ PType.DUST
        ∨ mode = AppMode.FOCUS := by
      rcases h with h | h
      · exact Or.inl (ih.2 ▸ h)
      · exact Or.inr h
    refine ⟨?_, ?_⟩
    · rw [runUpdates, Particle.update_targetPos_fixed _ _ _ h2, ih.1]
    · rw [runUpdates, Particle.update_type, ih.2]

lemma runUpdates_dist (mode : AppMode) (tseq : ℕ → ℝ) (p : Particle)
    (h : p.type ≠ PType.DUST ∨ mode = AppMode.FOCUS) (n : ℕ) :
    (runUpdates mode tseq p n).pos.dist (runUpdates mode tseq p n).targetPos
      = (1 - (if mode = AppMode.FOCUS then 0.08 else 0.05)) ^ n
        * p.pos.dist p.targetPos := by
  induction n with
  | zero => simp [runUpdates]
  | succ n ih =>
    have hf : (if mode = AppMode.FOCUS then (0.08 : ℝ) else 0.05) ≤ 1 := by
      split <;> norm_num
    have h2 : (runUpdates mode tseq p n).type ≠ PType.DUST
        ∨ mode = AppMode.FOCUS := by
      rcases h with h | h
      · exact Or.inl ((runUpdates_invariants mode tseq p (Or.inl h) n).2 ▸ h)
      · exact Or.inr h
    rw [runUpdates, Particle.update_targetPos_fixed _ _ _ h2,
      Particle.update_pos, Vec3.dist_lerp _ _ hf, ih]
    ring

/-- C2: with the target held fixed (not a drifting DUST particle), each tick
multiplies the distance from current position to target by `1 - f` where
`f = 0.08` in FOCUS mode and `0.05` otherwise; hence that distance is
non-increasing over ticks and tends to zero. -/
theorem smoothing_converges (p : Particle) (mode : AppMode) (tseq : ℕ → ℝ)
    (h : p.type ≠ PType.DUST ∨ mode = AppMode.FOCUS) :
    (∀ n, (runUpdates mode tseq p (n + 1)).pos.dist
        (runUpdates mode tseq p (n + 1)).targetPos
        = (1 - (if mode = AppMode.FOCUS then 0.08 else 0.05)) *
          ((runUpdates mode tseq p n).pos.dist
            (runUpdates mode tseq p n).targetPos))
    ∧ (∀ n m, n ≤ m →
        (runUpdates mode tseq p m).pos.dist (runUpdates mode tseq p m).targetPos
        ≤ (runUpdates mode tseq p n).pos.dist
            (runUpdates mode tseq p n).targetPos)
    ∧ Filter.Tendsto (fun n => (runUpdates mode tseq p n).pos.dist
        (runUpdates mode tseq p n).targetPos) Filter.atTop (nhds 0) := by
  set f : ℝ := if mode = AppMode.FOCUS then 0.08 else 0.05 with hfdef
  have hf0 : 0 ≤ 1 - f := by rw [hfdef]; split <;> norm_num
  have hf1 : 1 - f < 1 := by rw [hfdef]; split <;> norm_num
  have hd := runUpdates_dist mode tseq p h
  refine ⟨?_, ?_, ?_⟩
  · intro n
    rw [hd, hd]
    ring
  · intro n m hnm
    rw [hd, hd]
    have := mul_le_mul_of_nonneg_right
      (pow_le_pow_of_le_one hf0 (le_of_lt hf1) hnm)
      (Vec3.dist_nonneg p.pos p.targetPos)
    exact this
  · have hpow : Filter.Tendsto (fun n => (1 - f) ^ n) Filter.atTop (nhds 0) :=
      tendsto_pow_atTop_nhds_zero_of_lt_one hf0 hf1
    have := hpow.mul_const (p.pos.dist p.targetPos)
    rw [zero_mul] at this
    exact this.congr fun n => (hd n).symm

/-- A concrete SHAPE particle one unit away from its target, used to
instantiate hypotheses of the theorems above. -/
noncomputable def sampleShape : Particle where
  pos := ⟨1, 0, 0⟩
  rot := ⟨0, 0, 0⟩
  scale := ⟨1, 1, 1⟩
  type := PType.SHAPE
  targetPos := ⟨0, 0, 0⟩
  targetRot := ⟨0, 0, 0⟩
  targetScale := ⟨1, 1, 1⟩
  twinkleOffset := 0
  twinkleSpeed := 1
  velocity := ⟨0, 0, 0⟩
  baseScale := 1

/-- Witness for C2 at a concrete SHAPE particle in TREE mode. -/
theorem smoothing_converges_witness :
    Filter.Tendsto (fun n => (runUpdates AppMode.TREE (fun _ => 0) sampleShape n).pos.dist
      (runUpdates AppMode.TREE (fun _ => 0) sampleShape n).targetPos)
      Filter.atTop (nhds 0) :=
  (smoothing_converges sampleShape AppMode.TREE (fun _ => 0)
    (Or.inl (by decide))).2.2

/-! ## DUST drift and recycling -/

lemma dust_update_targetPos (p : Particle) (mode : AppMode) (t : ℝ)
    (hty : p.type = PType.DUST) (hm : mode ≠ AppMode.FOCUS) :
    (p.update mode t).targetPos =
      if (p.targetPos.add p.velocity).y < -20
      then { p.targetPos.add p.velocity with y := 30 }
      else p.targetPos.add p.velocity := by
  simp [Particle.update, hty, hm]

lemma dust_update_y_ge (p : Particle) (mode : AppMode) (t : ℝ)
    (hty : p.type = PType.DUST) (hm : mode ≠ AppMode.FOCUS) :
    -20 ≤ (p.update mode t).targetPos.y := by
  rw [dust_update_targetPos p mode t hty hm]
  split
  · norm_num
  · linarith [not_lt.mp (by assumption : ¬(p.targetPos.add p.velocity).y < -20)]

lemma runUpdates_type (mode : AppMode) (tseq : ℕ → ℝ) (p : Particle) :
    ∀ n, (runUpdates mode tseq p n).type = p.type := by
  intro n
  induction n with
  | zero => rfl
  | succ n ih => rw [runUpdates, Particle.update_type, ih]

/-- C6: for a DUST particle with mode ≠ FOCUS, each update advances the
target by the drift velocity, resetting the height to 30 in the same update
whenever it falls below -20; consequently after every such update the target
height is at least -20, at every tick count. -/
theorem dust_recycling (p : Particle) (mode : AppMode) (tseq : ℕ → ℝ)
    (hty : p.type = PType.DUST) (hm : mode ≠ AppMode.FOCUS) :
    (∀ t, (p.update mode t).targetPos =
      if (p.targetPos.add p.velocity).y < -20
      then { p.targetPos.add p.velocity with y := 30 }
      else p.targetPos.add p.velocity)
    ∧ (∀ t, -20 ≤ (p.update mode t).targetPos.y)
    ∧ ∀ n, -20 ≤ (runUpdates mode tseq p (n + 1)).targetPos.y := by
  refine ⟨fun t => dust_update_targetPos p mode t hty hm,
    fun t => dust_update_y_ge p mode t hty hm, fun n => ?_⟩
  have h : (runUpdates mode tseq p n).type = PType.DUST :=
    (runUpdates_type mode tseq p n).trans hty
  exact dust_update_y_ge _ mode (tseq n) h hm

/-- A concrete DUST particle whose target is about to fall below -20. -/
noncomputable def sampleDust : Particle where
  pos := ⟨0, 0, 0⟩
  rot := ⟨0, 0, 0⟩
  scale := ⟨1, 1, 1⟩
  type := PType.DUST
  targetPos := ⟨0, -19.99, 0⟩
  targetRot := ⟨0, 0, 0⟩
  targetScale := ⟨1, 1, 1⟩
  twinkleOffset := 0
  twinkleSpeed := 1
  velocity := ⟨0, -0.02, 0⟩
  baseScale := 1

/-- Witness for C6 at a concrete DUST particle in TREE mode. -/
theorem dust_recycling_witness :
    -20 ≤ (runUpdates AppMode.TREE (fun _ => 0) sampleDust 1).targetPos.y :=
  (dust_recycling sampleDust AppMode.TREE (fun _ => 0) (by decide)
    (by decide)).2.2 0

/-! ## Constructor initialization -/

lemma Vec3.lerp_self (a : Vec3) (f : ℝ) : a.lerp a f = a := by
  cases a
  simp [Vec3.lerp]

lemma Vec3.dist_self (a : Vec3) : a.dist a = 0 := by
  simp [Vec3.dist]

/-- C10: a freshly constructed particle copies the mesh transform into all
three targets and `baseScale`, starts at distance zero from its target, and
the first integrator tick leaves its position unchanged (for every mode and
time). -/
theorem particle_init (pos : Vec3) (rot : Euler3) (scale : Vec3) (ty : PType)
    (r1 r2 r3 r4 r5 : ℝ) :
    (Particle.mk0 pos rot scale ty r1 r2 r3 r4 r5).targetPos = pos
    ∧ (Particle.mk0 pos rot scale ty r1 r2 r3 r4 r5).targetRot = rot
    ∧ (Particle.mk0 pos rot scale ty r1 r2 r3 r4 r5).targetScale = scale
    ∧ (Particle.mk0 pos rot scale ty r1 r2 r3 r4 r5).baseScale = scale.x
    ∧ (Particle.mk0 pos rot scale ty r1 r2 r3 r4 r5).pos.dist
        (Particle.mk0 pos rot scale ty r1 r2 r3 r4 r5).targetPos = 0
    ∧ ∀ (mode : AppMode) (t : ℝ),
        ((Particle.mk0 pos rot scale ty r1 r2 r3 r4 r5).update mode t).pos
          = pos := by
  refine ⟨rfl, rfl, rfl, rfl, Vec3.dist_self pos, fun mode t => ?_⟩
  rw [Particle.update_pos]
  exact Vec3.lerp_self pos _

/-! ## Photo intake -/

lemma filterType_append (ty : PType) (l l2 : List Particle) :
    filterType ty (l ++ l2) = filterType ty l ++ filterType ty l2 := by
  induction l with
  | nil => rfl
  | cons p ps ih =>
    by_cases h : p.type = ty <;> simp [filterType, h, ih]

lemma countType_append (ty : PType) (l l2 : List Particle) :
    countType ty (l ++ l2) = countType ty l + countType ty l2 := by
  unfold countType
  rw [filterType_append, List.length_append]

lemma get?_append_left {l l2 : List Particle} {i : ℕ} (h : i < l.length) :
    (l ++ l2).get? i = l.get? i := by
  induction l generalizing i with
  | nil => simp at h
  | cons p ps ih =>
    cases i with
    | zero => rfl
    | succ i =>
      simp only [List.length_cons, Nat.succ_lt_succ_iff] at h
      simpa using ih h

/-- C7: `addPhotoToScene` grows the pool by exactly one PHOTO particle whose
spawn position lies within ±25 on every axis (given the three position draws
lie in [0,1)), and leaves every pre-existing particle — hence its target
transform — untouched. -/
theorem addPhoto_appends (rx ry rz c1 c2 c3 c4 c5 : ℝ) (pool : List Particle)
    (hx0 : 0 ≤ rx) (hx1 : rx < 1) (hy0 : 0 ≤ ry) (hy1 : ry < 1)
    (hz0 : 0 ≤ rz) (hz1 : rz < 1) :
    (addPhotoToScene rx ry rz c1 c2 c3 c4 c5 pool).length = pool.length + 1
    ∧ countType PType.PHOTO (addPhotoToScene rx ry rz c1 c2 c3 c4 c5 pool)
        = countType PType.PHOTO pool + 1
    ∧ (∀ i, i < pool.length →
        (addPhotoToScene rx ry rz c1 c2 c3 c4 c5 pool).get? i = pool.get? i)
    ∧ ∃ q, addPhotoToScene rx ry rz c1 c2 c3 c4 c5 pool = pool ++ [q]
        ∧ q.type = PType.PHOTO
        ∧ |q.pos.x| ≤ 25 ∧ |q.pos.y| ≤ 25 ∧ |q.pos.z| ≤ 25
        ∧ q.targetPos = q.pos := by
  refine ⟨?_, ?_, ?_, ?_⟩
  · unfold addPhotoToScene
    simp
  · unfold addPhotoToScene
    rw [countType_append]
    simp [countType, filterType, Particle.mk0]
  · intro i hi
    exact get?_append_left hi
  · refine ⟨_, rfl, rfl, ?_, ?_, ?_, rfl⟩
    · rw [abs_le]
      simp only [Particle.mk0]
      constructor <;> linarith
    · rw [abs_le]
      simp only [Particle.mk0]
      constructor <;> linarith
    · rw [abs_le]
      simp only [Particle.mk0]
      constructor <;> linarith

/-- Witness for C7: adding a photo to the empty pool yields a one-element
pool. -/
theorem addPhoto_appends_witness :
    (addPhotoToScene 0 0 0 0 0 0 0 0 []).length
      = List.length ([] : List Particle) + 1 :=
  (addPhoto_appends 0 0 0 0 0 0 0 0 [] (by norm_num) (by norm_num)
    (by norm_num) (by norm_num) (by norm_num) (by norm_num)).1

/-! ## SCATTER layout -/

lemma scatterTarget_norm (u t v : ℝ) (hu0 : 0 ≤ u) :
    Vec3.norm (scatterTarget u t v) = 10 + u * 25 := by
  unfold scatterTarget Vec3.norm
  have h1 : Real.cos (t * Real.pi * 2) ^ 2 + Real.sin (t * Real.pi * 2) ^ 2
      = 1 := Real.cos_sq_add_sin_sq _
  have h2 : Real.sin (Real.arccos (2 * v - 1)) ^ 2
      + Real.cos (Real.arccos (2 * v - 1)) ^ 2 = 1 :=
    Real.sin_sq_add_cos_sq _
  have key : ((10 + u * 25) * Real.sin (Real.arccos (2 * v - 1))
        * Real.cos (t * Real.pi * 2)) ^ 2
      + ((10 + u * 25) * Real.sin (Real.arccos (2 * v - 1))
        * Real.sin (t * Real.pi * 2)) ^ 2
      + ((10 + u * 25) * Real.cos (Real.arccos (2 * v - 1))) ^ 2
      = (10 + u * 25) ^ 2 := by
    linear_combination ((10 + u * 25) ^ 2
        * Real.sin (Real.arccos (2 * v - 1)) ^ 2) * h1
      + (10 + u * 25) ^ 2 * h2
  rw [key]
  exact Real.sqrt_sq (by linarith)

/-- Overwrite the target position, keeping everything else (the sole effect
of the SCATTER pass on each particle). -/
def setTarget (v : Vec3) (p : Particle) : Particle :=
  { p with targetPos := v }

lemma layoutScatterAux_get? (rnd : ℕ → ℝ × ℝ × ℝ) (l : List Particle) :
    ∀ j i, (layoutScatterAux rnd j l).get? i = (l.get? i).map
      (setTarget (scatterTarget (rnd (j + i)).1 (rnd (j + i)).2.1
        (rnd (j + i)).2.2)) := by
  induction l with
  | nil => intro j i; rfl
  | cons p ps ih =>
    intro j i
    cases i with
    | zero => simp [layoutScatterAux, setTarget]
    | succ i =>
      have hidx : j + (i + 1) = j + 1 + i := by omega
      simp only [layoutScatterAux, List.get?]
      rw [hidx]
      exact ih (j + 1) i

/-- C3: in SCATTER mode every particle, of every type, receives the shell
target built from its own three draws, and (when the radius draw lies in
[0,1)) that target's distance from the origin lies in [10, 35]. -/
theorem scatter_shell (rnd : ℕ → ℝ × ℝ × ℝ) (pool : List Particle)
    (hu : ∀ i, 0 ≤ (rnd i).1 ∧ (rnd i).1 < 1) :
    ∀ i p, pool.get? i = some p →
      (layoutScatter rnd pool).get? i = some
        (setTarget (scatterTarget (rnd i).1 (rnd i).2.1 (rnd i).2.2) p)
      ∧ 10 ≤ Vec3.norm (scatterTarget (rnd i).1 (rnd i).2.1 (rnd i).2.2)
      ∧ Vec3.norm (scatterTarget (rnd i).1 (rnd i).2.1 (rnd i).2.2) ≤ 35 := by
  intro i p hp
  have hget := layoutScatterAux_get? rnd pool 0 i
  simp only [Nat.zero_add] at hget
  rw [hp] at hget
  have hnorm := scatterTarget_norm (rnd i).1 (rnd i).2.1 (rnd i).2.2 (hu i).1
  refine ⟨hget, ?_, ?_⟩
  · rw [hnorm]
    nlinarith [(hu i).1]
  · rw [hnorm]
    nlinarith [(hu i).2]

/-- Witness for C3: the scatter pass on a one-element pool with all draws 0
produces a target at distance exactly 10, inside [10, 35]. -/
theorem scatter_shell_witness :
    10 ≤ Vec3.norm (scatterTarget ((fun _ : ℕ => ((0 : ℝ), (0 : ℝ), (0 : ℝ))) 0).1
      ((fun _ : ℕ => ((0 : ℝ), (0 : ℝ), (0 : ℝ))) 0).2.1
      ((fun _ : ℕ => ((0 : ℝ), (0 : ℝ), (0 : ℝ))) 0).2.2) :=
  (scatter_shell (fun _ => (0, 0, 0)) [sampleShape]
    (fun _ => ⟨le_refl 0, by norm_num⟩) 0 sampleShape rfl).2.1

/-! ## FOCUS layout -/

lemma focusPhoto_type (isMobile : Bool) (focusIdx i : ℕ) (rx ry : ℝ)
    (p : Particle) : (focusPhoto isMobile focusIdx i rx ry p).type = p.type := by
  unfold focusPhoto
  split <;> rfl

lemma layoutFocusAux_get?_other (isMobile : Bool) (focusIdx : ℕ)
    (rnd : ℕ → ℝ × ℝ) (l : List Particle) :
    ∀ iP sd i p, l.get? i = some p → p.type ≠ PType.PHOTO →
      p.type ≠ PType.STAR →
      (layoutFocusAux isMobile focusIdx rnd iP sd l).get? i = some p := by
  induction l with
  | nil => intro iP sd i p hp _ _; simp at hp
  | cons q ps ih =>
    intro iP sd i p hp h1 h2
    cases i with
    | zero =>
      rw [List.get?] at hp
      injection hp with hp
      have hq1 : q.type ≠ PType.PHOTO := by rw [hp]; exact h1
      have hq2 : ¬(q.type = PType.STAR ∧ sd = false) := by
        rw [hp]; exact fun h => h2 h.1
      rw [layoutFocusAux, if_neg hq1, if_neg hq2, List.get?, hp]
    | succ i =>
      rw [List.get?] at hp
      rw [layoutFocusAux]
      by_cases hq1 : q.type = PType.PHOTO
      · rw [if_pos hq1]
        exact ih (iP + 1) sd i p hp h1 h2
      · rw [if_neg hq1]
        by_cases hq2 : q.type = PType.STAR ∧ sd = false
        · rw [if_pos hq2]
          exact ih iP true i p hp h1 h2
        · rw [if_neg hq2]
          exact ih iP sd i p hp h1 h2

/-- C5: the FOCUS pass returns every particle that is neither a PHOTO nor
the STAR (in particular every NEEDLE and every SHAPE) exactly as it was —
target position, target orientation and target scale included. -/
theorem focus_preserves_non_photo (isMobile : Bool) (focusIdx : ℕ)
    (rnd : ℕ → ℝ × ℝ) (pool : List Particle) :
    ∀ i p, pool.get? i = some p → p.type ≠ PType.PHOTO →
      p.type ≠ PType.STAR →
      (layoutFocus isMobile focusIdx rnd pool).get? i = some p :=
  fun i p hp h1 h2 =>
    layoutFocusAux_get?_other isMobile focusIdx rnd pool 0 false i p hp h1 h2

/-- Witness for C5: a one-needle pool passes through the FOCUS pass
unchanged. -/
theorem focus_preserves_non_photo_witness :
    (layoutFocus false 0 (fun _ => (0, 0)) [sampleShape]).get? 0
      = some sampleShape :=
  focus_preserves_non_photo false 0 (fun _ => (0, 0)) [sampleShape] 0
    sampleShape rfl (by decide) (by decide)

/-- The FOCUS pass restricted to the PHOTO partition: each photo at
partition index `j` onward goes through `focusPhoto`. -/
def focusMapFrom (isMobile : Bool) (focusIdx : ℕ) (rnd : ℕ → ℝ × ℝ) :
    ℕ → List Particle → List Particle
  | _, [] => []
  | j, p :: ps => focusPhoto isMobile focusIdx j (rnd j).1 (rnd j).2 p ::
      focusMapFrom isMobile focusIdx rnd (j + 1) ps

lemma filterType_layoutFocusAux (isMobile : Bool) (focusIdx : ℕ)
    (rnd : ℕ → ℝ × ℝ) (l : List Particle) :
    ∀ iP sd, filterType PType.PHOTO (layoutFocusAux isMobile focusIdx rnd iP sd l)
      = focusMapFrom isMobile focusIdx rnd iP (filterType PType.PHOTO l) := by
  induction l with
  | nil => intro iP sd; rfl
  | cons q ps ih =>
    intro iP sd
    by_cases hq1 : q.type = PType.PHOTO
    · rw [layoutFocusAux, if_pos hq1]
      rw [filterType, if_pos (by rw [focusPhoto_type]; exact hq1)]
      rw [filterType, if_pos hq1, focusMapFrom]
      rw [ih (iP + 1) sd]
    · rw [layoutFocusAux, if_neg hq1]
      by_cases hq2 : q.type = PType.STAR ∧ sd = false
      · rw [if_pos hq2]
        rw [filterType, if_neg (by simpa using hq1)]
        rw [filterType, if_neg hq1]
        exact ih iP true
      · rw [if_neg hq2]
        rw [filterType, if_neg hq1, filterType, if_neg hq1]
        exact ih iP sd

lemma focusMapFrom_get? (isMobile : Bool) (focusIdx : ℕ) (rnd : ℕ → ℝ × ℝ)
    (l : List Particle) :
    ∀ j i, (focusMapFrom isMobile focusIdx rnd j l).get? i
      = (l.get? i).map
        (focusPhoto isMobile focusIdx (j + i) (rnd (j + i)).1 (rnd (j + i)).2) := by
  induction l with
  | nil => intro j i; rfl
  | cons p ps ih =>
    intro j i
    cases i with
    | zero => simp [focusMapFrom]
    | succ i =>
      have hidx : j + (i + 1) = j + 1 + i := by omega
      simp only [focusMapFrom, List.get?]
      rw [hidx]
      exact ih (j + 1) i

lemma focusPhoto_chosen (m : Bool) (fIdx : ℕ) (rx ry : ℝ) (p : Particle) :
    (focusPhoto m fIdx fIdx rx ry p).targetPos = ⟨0, 3, if m then 30 else 35⟩
    ∧ (focusPhoto m fIdx fIdx rx ry p).targetRot = ⟨0, 0, 0⟩
    ∧ (focusPhoto m fIdx fIdx rx ry p).targetScale
        = ⟨if m then 3.5 else 5.5, if m then 3.5 else 5.5, 5.5⟩
    ∧ (focusPhoto m fIdx fIdx rx ry p).baseScale = p.baseScale := by
  unfold focusPhoto
  rw [if_pos rfl]
  exact ⟨rfl, rfl, rfl, rfl⟩

lemma focusPhoto_other (m : Bool) (fIdx i : ℕ) (rx ry : ℝ) (p : Particle)
    (h : i ≠ fIdx) : (focusPhoto m fIdx i rx ry p).targetPos.z = -40 := by
  unfold focusPhoto
  rw [if_neg h]

/-- C4: in a FOCUS pass with a valid chosen index, exactly one PHOTO (the
one at the chosen partition index) is staged front and center — position
`(0, 3, 30)` on constrained displays and `(0, 3, 35)` otherwise, neutral
orientation, every target-scale component at least 3.5 times its base scale,
strictly positive depth — and every other PHOTO gets target depth `z = -40`. -/
theorem focus_one_photo (isMobile : Bool) (focusIdx : ℕ) (rnd : ℕ → ℝ × ℝ)
    (pool : List Particle)
    (hidx : focusIdx < countType PType.PHOTO pool)
    (hbase : ∀ p ∈ filterType PType.PHOTO pool, p.baseScale = 1) :
    ∃ q, (filterType PType.PHOTO (layoutFocus isMobile focusIdx rnd pool)).get?
        focusIdx = some q
      ∧ q.targetPos = ⟨0, 3, if isMobile then 30 else 35⟩
      ∧ q.targetRot = ⟨0, 0, 0⟩
      ∧ 3.5 * q.baseScale ≤ q.targetScale.x
      ∧ 3.5 * q.baseScale ≤ q.targetScale.y
      ∧ 3.5 * q.baseScale ≤ q.targetScale.z
      ∧ 0 < q.targetPos.z
      ∧ ∀ j q2, j ≠ focusIdx →
          (filterType PType.PHOTO (layoutFocus isMobile focusIdx rnd pool)).get? j
            = some q2 → q2.targetPos.z = -40 := by
  have hfilter := filterType_layoutFocusAux isMobile focusIdx rnd pool 0 false
  have hlen : focusIdx < (filterType PType.PHOTO pool).length := hidx
  obtain ⟨p, hp⟩ : ∃ p, (filterType PType.PHOTO pool).get? focusIdx = some p := by
    rw [List.get?_eq_get hlen]
    exact ⟨_, rfl⟩
  have hget := focusMapFrom_get? isMobile focusIdx rnd
    (filterType PType.PHOTO pool) 0 focusIdx
  simp only [Nat.zero_add] at hget
  rw [hp] at hget
  have hpmem : p ∈ filterType PType.PHOTO pool := List.get?_mem hp
  have hb : p.baseScale = 1 := hbase p hpmem
  obtain ⟨he1, he2, he3, he4⟩ := focusPhoto_chosen isMobile focusIdx
    (rnd focusIdx).1 (rnd focusIdx).2 p
  refine ⟨focusPhoto isMobile focusIdx focusIdx (rnd focusIdx).1
    (rnd focusIdx).2 p, ?_, he1, he2, ?_, ?_, ?_, ?_, ?_⟩
  · rw [layoutFocus, hfilter, hget]
    rfl
  · rw [he3, he4, hb]
    cases isMobile <;> norm_num
  · rw [he3, he4, hb]
    cases isMobile <;> norm_num
  · rw [he3, he4, hb]
    norm_num
  · rw [he1]
    cases isMobile <;> norm_num
  · intro j q2 hj hq2
    rw [layoutFocus, hfilter] at hq2
    have hget2 := focusMapFrom_get? isMobile focusIdx rnd
      (filterType PType.PHOTO pool) 0 j
    simp only [Nat.zero_add] at hget2
    rw [hget2] at hq2
    rcases Option.map_eq_some'.mp hq2 with ⟨p2, _, hfp2⟩
    rw [← hfp2]
    exact focusPhoto_other isMobile focusIdx j (rnd j).1 (rnd j).2 p2 hj

/-- A concrete PHOTO particle with unit base scale. -/
noncomputable def samplePhoto : Particle where
  pos := ⟨0, 0, 0⟩
  rot := ⟨0, 0, 0⟩
  scale := ⟨1, 1, 1⟩
  type := PType.PHOTO
  targetPos := ⟨0, 0, 0⟩
  targetRot := ⟨0, 0, 0⟩
  targetScale := ⟨1, 1, 1⟩
  twinkleOffset := 0
  twinkleSpeed := 1
  velocity := ⟨0, 0, 0⟩
  baseScale := 1

/-- Witness for C4 on a one-photo pool with chosen index 0. -/
theorem focus_one_photo_witness :
    ∃ q, (filterType PType.PHOTO
        (layoutFocus false 0 (fun _ => (0, 0)) [samplePhoto])).get? 0 = some q
      ∧ q.targetPos = ⟨0, 3, if false then 30 else 35⟩
      ∧ q.targetRot = ⟨0, 0, 0⟩
      ∧ 3.5 * q.baseScale ≤ q.targetScale.x
      ∧ 3.5 * q.baseScale ≤ q.targetScale.y
      ∧ 3.5 * q.baseScale ≤ q.targetScale.z
      ∧ 0 < q.targetPos.z
      ∧ ∀ j q2, j ≠ 0 →
          (filterType PType.PHOTO
            (layoutFocus false 0 (fun _ => (0, 0)) [samplePhoto])).get? j
            = some q2 → q2.targetPos.z = -40 :=
  focus_one_photo false 0 (fun _ => (0, 0)) [samplePhoto]
    (by decide)
    (by
      intro p hp
      have hty : samplePhoto.type = PType.PHOTO := rfl
      rw [filterType, if_pos hty, filterType] at hp
      rw [List.mem_singleton.mp hp]
      rfl)

/-! ## TREE layout -/

lemma treeNeedle_type (count i : ℕ) (r1 r2 : ℝ) (p : Particle) :
    (treeNeedle count i r1 r2 p).type = p.type := rfl

lemma treeShape_type (count i : ℕ) (p : Particle) :
    (treeShape count i p).type = p.type := rfl

lemma treePhoto_type (isMobile : Bool) (count i : ℕ) (r : ℝ) (p : Particle) :
    (treePhoto isMobile count i r p).type = p.type := rfl

/-- The TREE pass restricted to the NEEDLE partition. -/
noncomputable def needleMapFrom (cN : ℕ) (rN : ℕ → ℝ × ℝ) :
    ℕ → List Particle → List Particle
  | _, [] => []
  | j, p :: ps => treeNeedle cN j (rN j).1 (rN j).2 p ::
      needleMapFrom cN rN (j + 1) ps

/-- The TREE pass restricted to the PHOTO partition. -/
noncomputable def photoMapFrom (isMobile : Bool) (cP : ℕ) (rP : ℕ → ℝ) :
    ℕ → List Particle → List Particle
  | _, [] => []
  | j, p :: ps => treePhoto isMobile cP j (rP j) p ::
      photoMapFrom isMobile cP rP (j + 1) ps

lemma filterType_layoutTreeAux_needle (isMobile : Bool) (cN cS cP : ℕ)
    (rN : ℕ → ℝ × ℝ) (rP : ℕ → ℝ) (l : List Particle) :
    ∀ iN iS iP sd,
      filterType PType.NEEDLE (layoutTreeAux isMobile cN cS cP rN rP iN iS iP sd l)
        = needleMapFrom cN rN iN (filterType PType.NEEDLE l) := by
  induction l with
  | nil => intro iN iS iP sd; rfl
  | cons q ps ih =>
    intro iN iS iP sd
    by_cases h1 : q.type = PType.NEEDLE
    · rw [layoutTreeAux, if_pos h1, filterType,
        if_pos (show (treeNeedle cN iN (rN iN).1 (rN iN).2 q).type
          = PType.NEEDLE from h1),
        filterType, if_pos h1, needleMapFrom, ih]
    · rw [layoutTreeAux, if_neg h1]
      by_cases h2 : q.type = PType.SHAPE
      · rw [if_pos h2, filterType,
          if_neg (show ¬(treeShape cS iS q).type = PType.NEEDLE from h1),
          filterType, if_neg h1, ih]
      · rw [if_neg h2]
        by_cases h3 : q.type = PType.PHOTO
        · rw [if_pos h3, filterType,
            if_neg (show ¬(treePhoto isMobile cP iP (rP iP) q).type
              = PType.NEEDLE from h1),
            filterType, if_neg h1, ih]
        · rw [if_neg h3]
          by_cases h4 : q.type = PType.STAR ∧ sd = false
          · rw [if_pos h4, filterType, if_neg (by simpa using h1),
              filterType, if_neg h1, ih]
          · rw [if_neg h4, filterType, if_neg h1, filterType, if_neg h1, ih]

lemma filterType_layoutTreeAux_photo (isMobile : Bool) (cN cS cP : ℕ)
    (rN : ℕ → ℝ × ℝ) (rP : ℕ → ℝ) (l : List Particle) :
    ∀ iN iS iP sd,
      filterType PType.PHOTO (layoutTreeAux isMobile cN cS cP rN rP iN iS iP sd l)
        = photoMapFrom isMobile cP rP iP (filterType PType.PHOTO l) := by
  induction l with
  | nil => intro iN iS iP sd; rfl
  | cons q ps ih =>
    intro iN iS iP sd
    by_cases h1 : q.type = PType.NEEDLE
    · have h1' : ¬q.type = PType.PHOTO := by rw [h1]; intro hh; cases hh
      rw [layoutTreeAux, if_pos h1, filterType,
        if_neg (show ¬(treeNeedle cN iN (rN iN).1 (rN iN).2 q).type
          = PType.PHOTO from h1'),
        filterType, if_neg h1', ih]
    · rw [layoutTreeAux, if_neg h1]
      by_cases h2 : q.type = PType.SHAPE
      · have h2' : ¬q.type = PType.PHOTO := by rw [h2]; intro hh; cases hh
        rw [if_pos h2, filterType,
          if_neg (show ¬(treeShape cS iS q).type = PType.PHOTO from h2'),
          filterType, if_neg h2', ih]
      · rw [if_neg h2]
        by_cases h3 : q.type = PType.PHOTO
        · rw [if_pos h3, filterType,
            if_pos (show (treePhoto isMobile cP iP (rP iP) q).type
              = PType.PHOTO from h3),
            filterType, if_pos h3, photoMapFrom, ih]
        · rw [if_neg h3]
          by_cases h4 : q.type = PType.STAR ∧ sd = false
          · rw [if_pos h4, filterType, if_neg (by simpa using h3),
              filterType, if_neg h3, ih]
          · rw [if_neg h4, filterType, if_neg h3, filterType, if_neg h3, ih]

lemma needleMapFrom_get? (cN : ℕ) (rN : ℕ → ℝ × ℝ) (l : List Particle) :
    ∀ j i, (needleMapFrom cN rN j l).get? i = (l.get? i).map fun p =>
      treeNeedle cN (j + i) (rN (j + i)).1 (rN (j + i)).2 p := by
  induction l with
  | nil => intro j i; rfl
  | cons p ps ih =>
    intro j i
    cases i with
    | zero => simp [needleMapFrom]
    | succ i =>
      have hidx : j + (i + 1) = j + 1 + i := by omega
      simp only [needleMapFrom, List.get?]
      rw [hidx]
      exact ih (j + 1) i

lemma photoMapFrom_get? (isMobile : Bool) (cP : ℕ) (rP : ℕ → ℝ)
    (l : List Particle) :
    ∀ j i, (photoMapFrom isMobile cP rP j l).get? i = (l.get? i).map fun p =>
      treePhoto isMobile cP (j + i) (rP (j + i)) p := by
  induction l with
  | nil => intro j i; rfl
  | cons p ps ih =>
    intro j i
    cases i with
    | zero => simp [photoMapFrom]
    | succ i =>
      have hidx : j + (i + 1) = j + 1 + i := by omega
      simp only [photoMapFrom, List.get?]
      rw [hidx]
      exact ih (j + 1) i

lemma Vec3.axisDist_ring (a r h : ℝ) (hr : 0 ≤ r) :
    Vec3.axisDist ⟨Real.cos a * r, h, Real.sin a * r⟩ = r := by
  unfold Vec3.axisDist
  have key : (Real.cos a * r) ^ 2 + (Real.sin a * r) ^ 2 = r ^ 2 := by
    linear_combination r ^ 2 * Real.sin_sq_add_cos_sq a
  simp only []
  rw [key]
  exact Real.sqrt_sq hr

lemma treeNeedle_targetPos (count i : ℕ) (r1 r2 : ℝ) (p : Particle) :
    (treeNeedle count i r1 r2 p).targetPos
      = ⟨Real.cos ((i : ℝ) / (count : ℝ) * 50 * Real.pi)
          * (9 * (1 - (i : ℝ) / (count : ℝ)) ^ (1.3 : ℝ)),
        (i : ℝ) / (count : ℝ) * 28 - 12,
        Real.sin ((i : ℝ) / (count : ℝ) * 50 * Real.pi)
          * (9 * (1 - (i : ℝ) / (count : ℝ)) ^ (1.3 : ℝ))⟩ := rfl

lemma treeNeedle_radius_nonneg (count i : ℕ) (hin : i ≤ count) :
    0 ≤ 9 * (1 - (i : ℝ) / (count : ℝ)) ^ (1.3 : ℝ) := by
  have ht : (i : ℝ) / (count : ℝ) ≤ 1 := by
    rcases Nat.eq_zero_or_pos count with hc | hc
    · subst hc
      simp
    · rw [div_le_one (by exact_mod_cast hc)]
      exact_mod_cast hin
  have := Real.rpow_nonneg
    (show (0 : ℝ) ≤ 1 - (i : ℝ) / (count : ℝ) by linarith) (1.3 : ℝ)
  linarith

/-- C1: the TREE pass routes each needle at partition index `i` of `count`
through `treeNeedle`, whose target sits at horizontal radius
`9*(1-t)^1.3`, angle `t*50π` and height `t*28-12` for `t = i/count`; the
needle at index 0 has height exactly -12 and radius exactly 9, and the
needle at index `count-1` has height `16 - 28/count` (≈16) and radius at
most `9/count` (≈0). -/
theorem tree_needle_cone (isMobile : Bool) (rN : ℕ → ℝ × ℝ) (rP : ℕ → ℝ)
    (pool : List Particle) (n : ℕ) (hn : n = countType PType.NEEDLE pool)
    (hc : 0 < n) :
    (∀ i p, (filterType PType.NEEDLE pool).get? i = some p →
      (filterType PType.NEEDLE (layoutTree isMobile rN rP pool)).get? i
        = some (treeNeedle n i (rN i).1 (rN i).2 p))
    ∧ (∀ (i : ℕ) (r1 r2 : ℝ) (p : Particle), i < n →
        (treeNeedle n i r1 r2 p).targetPos.y = (i : ℝ) / (n : ℝ) * 28 - 12
        ∧ (treeNeedle n i r1 r2 p).targetPos.x
            = Real.cos ((i : ℝ) / (n : ℝ) * 50 * Real.pi)
              * (9 * (1 - (i : ℝ) / (n : ℝ)) ^ (1.3 : ℝ))
        ∧ (treeNeedle n i r1 r2 p).targetPos.z
            = Real.sin ((i : ℝ) / (n : ℝ) * 50 * Real.pi)
              * (9 * (1 - (i : ℝ) / (n : ℝ)) ^ (1.3 : ℝ))
        ∧ Vec3.axisDist (treeNeedle n i r1 r2 p).targetPos
            = 9 * (1 - (i : ℝ) / (n : ℝ)) ^ (1.3 : ℝ))
    ∧ (∀ (r1 r2 : ℝ) (p : Particle),
        (treeNeedle n 0 r1 r2 p).targetPos.y = -12
        ∧ Vec3.axisDist (treeNeedle n 0 r1 r2 p).targetPos = 9)
    ∧ (∀ (r1 r2 : ℝ) (p : Particle),
        (treeNeedle n (n - 1) r1 r2 p).targetPos.y = 16 - 28 / (n : ℝ)
        ∧ Vec3.axisDist (treeNeedle n (n - 1) r1 r2 p).targetPos
            ≤ 9 / (n : ℝ)) := by
  have hnR : (0 : ℝ) < (n : ℝ) := by exact_mod_cast hc
  have hnne : (n : ℝ) ≠ 0 := ne_of_gt hnR
  refine ⟨?_, ?_, ?_, ?_⟩
  · intro i p hp
    rw [layoutTree, ← hn, filterType_layoutTreeAux_needle]
    have hget := needleMapFrom_get? n rN (filterType PType.NEEDLE pool) 0 i
    simp only [Nat.zero_add] at hget
    rw [hget, hp]
    rfl
  · intro i r1 r2 p hi
    refine ⟨rfl, rfl, rfl, ?_⟩
    rw [treeNeedle_targetPos]
    exact Vec3.axisDist_ring _ _ _ (treeNeedle_radius_nonneg n i (le_of_lt hi))
  · intro r1 r2 p
    have h0 : ((0 : ℕ) : ℝ) / (n : ℝ) = 0 := by simp
    constructor
    · show ((0 : ℕ) : ℝ) / (n : ℝ) * 28 - 12 = -12
      rw [h0]
      norm_num
    · rw [treeNeedle_targetPos,
        Vec3.axisDist_ring _ _ _ (treeNeedle_radius_nonneg n 0 (le_of_lt hc)),
        h0]
      norm_num [Real.one_rpow]
  · intro r1 r2 p
    have hn1 : ((n - 1 : ℕ) : ℝ) = (n : ℝ) - 1 := by
      rw [Nat.cast_sub hc]
      norm_num
    have ht : 1 - ((n - 1 : ℕ) : ℝ) / (n : ℝ) = 1 / (n : ℝ) := by
      rw [hn1]
      field_simp
    constructor
    · show ((n - 1 : ℕ) : ℝ) / (n : ℝ) * 28 - 12 = 16 - 28 / (n : ℝ)
      rw [hn1]
      field_simp
      ring
    · rw [treeNeedle_targetPos,
        Vec3.axisDist_ring _ _ _
          (treeNeedle_radius_nonneg n (n - 1) (Nat.sub_le n 1)),
        ht]
      have hx0 : (0 : ℝ) < 1 / (n : ℝ) := by positivity
      have hx1 : 1 / (n : ℝ) ≤ 1 := by
        rw [div_le_one hnR]
        exact_mod_cast hc
      have hb := Real.rpow_le_rpow_of_exponent_ge hx0 hx1
        (by norm_num : (1 : ℝ) ≤ 1.3)
      rw [Real.rpow_one] at hb
      calc 9 * (1 / (n : ℝ)) ^ (1.3 : ℝ) ≤ 9 * (1 / (n : ℝ)) := by linarith
        _ = 9 / (n : ℝ) := by ring

/-- A concrete NEEDLE particle. -/
noncomputable def sampleNeedle : Particle where
  pos := ⟨0, 0, 0⟩
  rot := ⟨0, 0, 0⟩
  scale := ⟨1, 1, 1⟩
  type := PType.NEEDLE
  targetPos := ⟨0, 0, 0⟩
  targetRot := ⟨0, 0, 0⟩
  targetScale := ⟨1, 1, 1⟩
  twinkleOffset := 0
  twinkleSpeed := 1
  velocity := ⟨0, 0, 0⟩
  baseScale := 1

/-- Witness for C1 on a one-needle pool: the base needle's target height is
exactly -12. -/
theorem tree_needle_cone_witness :
    (treeNeedle 1 0 (0 : ℝ) (0 : ℝ) sampleNeedle).targetPos.y = -12 :=
  ((tree_needle_cone false (fun _ => (0, 0)) (fun _ => 0) [sampleNeedle] 1
    (by decide) (by decide)).2.2.1 0 0 sampleNeedle).1

/-! ## TREE photo ring (C8) -/

lemma treePhoto_fields (m : Bool) (count i : ℕ) (r : ℝ) (p : Particle) :
    (treePhoto m count i r p).targetPos
      = ⟨Real.cos ((i : ℝ) / (count : ℝ) * Real.pi * 2) * (if m then 12 else 16),
        2 + r * 5,
        Real.sin ((i : ℝ) / (count : ℝ) * Real.pi * 2) * (if m then 12 else 16)⟩
    ∧ (treePhoto m count i r p).targetRot
      = ⟨0, -((i : ℝ) / (count : ℝ) * Real.pi * 2) + Real.pi, 0⟩
    ∧ (treePhoto m count i r p).targetScale = ⟨0.6, 0.6, 0.6⟩ :=
  ⟨rfl, rfl, rfl⟩

/-- C8 counterexample: for the photo at partition index 1 of 4 (ring angle
`a = (1/4)*2π = π/2`), the stored target yaw is `-a + π = π/2`, not the
claimed `a + π = 3π/2`. -/
theorem tree_photo_yaw_counterexample :
    (treePhoto false 4 1 0 samplePhoto).targetRot.y
      ≠ ((1 : ℕ) : ℝ) / ((4 : ℕ) : ℝ) * Real.pi * 2 + Real.pi := by
  have h : (treePhoto false 4 1 0 samplePhoto).targetRot.y
      = -(((1 : ℕ) : ℝ) / ((4 : ℕ) : ℝ) * Real.pi * 2) + Real.pi := rfl
  rw [h]
  intro hcontra
  have hpi := Real.pi_pos
  have h14 : ((1 : ℕ) : ℝ) / ((4 : ℕ) : ℝ) = 1 / 4 := by norm_num
  rw [h14] at hcontra
  linarith

/-- C8 (amended): the TREE pass routes each photo at partition index `i` of
`count` through `treePhoto`, whose target sits at horizontal radius 12
(constrained display) or 16 at ring angle `a = (i/count)*2π`, with height
`2 + r*5` for its random draw `r`, target yaw `-a + π` (π minus the ring
angle, facing inward), and uniform target scale 0.6. -/
theorem tree_photo_ring (isMobile : Bool) (rN : ℕ → ℝ × ℝ) (rP : ℕ → ℝ)
    (pool : List Particle) (n : ℕ) (hn : n = countType PType.PHOTO pool) :
    (∀ i p, (filterType PType.PHOTO pool).get? i = some p →
      (filterType PType.PHOTO (layoutTree isMobile rN rP pool)).get? i
        = some (treePhoto isMobile n i (rP i) p))
    ∧ ∀ (i : ℕ) (r : ℝ) (p : Particle),
        Vec3.axisDist (treePhoto isMobile n i r p).targetPos
            = (if isMobile then 12 else 16)
        ∧ (treePhoto isMobile n i r p).targetPos.x
            = Real.cos ((i : ℝ) / (n : ℝ) * Real.pi * 2)
              * (if isMobile then 12 else 16)
        ∧ (treePhoto isMobile n i r p).targetPos.z
            = Real.sin ((i : ℝ) / (n : ℝ) * Real.pi * 2)
              * (if isMobile then 12 else 16)
        ∧ (treePhoto isMobile n i r p).targetPos.y = 2 + r * 5
        ∧ (treePhoto isMobile n i r p).targetRot
            = ⟨0, -((i : ℝ) / (n : ℝ) * Real.pi * 2) + Real.pi, 0⟩
        ∧ (treePhoto isMobile n i r p).targetScale = ⟨0.6, 0.6, 0.6⟩ := by
  constructor
  · intro i p hp
    rw [layoutTree, ← hn, filterType_layoutTreeAux_photo]
    have hget := photoMapFrom_get? isMobile n rP (filterType PType.PHOTO pool) 0 i
    simp only [Nat.zero_add] at hget
    rw [hget, hp]
    rfl
  · intro i r p
    obtain ⟨hf1, hf2, hf3⟩ := treePhoto_fields isMobile n i r p
    refine ⟨?_, ?_, ?_, ?_, hf2, hf3⟩
    · rw [hf1]
      exact Vec3.axisDist_ring _ _ _ (by split <;> norm_num)
    · rw [hf1]
    · rw [hf1]
    · rw [hf1]

/-- Witness for the amended C8 on a one-photo pool: target scale 0.6. -/
theorem tree_photo_ring_witness :
    (treePhoto false 1 0 (0 : ℝ) samplePhoto).targetScale = ⟨0.6, 0.6, 0.6⟩ :=
  ((tree_photo_ring false (fun _ => (0, 0)) (fun _ => 0) [samplePhoto] 1
    (by decide)).2 0 0 samplePhoto).2.2.2.2.2

/-! ## Re-invocation and determinism of the layout passes (C9) -/

/-- C9 counterexample: running the TREE pass twice in succession on a
one-needle pool with fresh random draws (as `Math.random` supplies on each
invocation) does not reproduce the first pass's targets: the needle's target
orientation tilts are redrawn. -/
theorem tree_layout_rerun_counterexample :
    layoutTree false (fun _ => ((1 : ℝ), (1 : ℝ))) (fun _ => 0)
      (layoutTree false (fun _ => ((0 : ℝ), (0 : ℝ))) (fun _ => 0)
        [sampleNeedle])
    ≠ layoutTree false (fun _ => ((0 : ℝ), (0 : ℝ))) (fun _ => 0)
      [sampleNeedle] := by
  intro h
  have e1 : layoutTree false (fun _ => ((0 : ℝ), (0 : ℝ))) (fun _ => 0)
      [sampleNeedle] = [treeNeedle 1 0 0 0 sampleNeedle] := rfl
  have e2 : layoutTree false (fun _ => ((1 : ℝ), (1 : ℝ))) (fun _ => 0)
      [treeNeedle 1 0 0 0 sampleNeedle]
      = [treeNeedle 1 0 1 1 (treeNeedle 1 0 0 0 sampleNeedle)] := rfl
  rw [e1, e2] at h
  have h3 : treeNeedle 1 0 1 1 (treeNeedle 1 0 0 0 sampleNeedle)
      = treeNeedle 1 0 0 0 sampleNeedle := by injection h
  have h4 := congrArg (fun q => q.targetRot.x) h3
  have h5 : (1 : ℝ) = 0 := h4
  norm_num at h5

lemma countType_cons (ty : PType) (p : Particle) (ps : List Particle) :
    countType ty (p :: ps)
      = (if p.type = ty then 1 else 0) + countType ty ps := by
  unfold countType
  rw [filterType]
  split
  · simp [Nat.add_comm]
  · simp

lemma countType_layoutTreeAux (isMobile : Bool) (cN cS cP : ℕ)
    (rN : ℕ → ℝ × ℝ) (rP : ℕ → ℝ) (ty : PType) (l : List Particle) :
    ∀ iN iS iP sd,
      countType ty (layoutTreeAux isMobile cN cS cP rN rP iN iS iP sd l)
        = countType ty l := by
  induction l with
  | nil => intro iN iS iP sd; rfl
  | cons q ps ih =>
    intro iN iS iP sd
    by_cases h1 : q.type = PType.NEEDLE
    · rw [layoutTreeAux, if_pos h1, countType_cons, countType_cons, ih]
      try rfl
    · rw [layoutTreeAux, if_neg h1]
      by_cases h2 : q.type = PType.SHAPE
      · rw [if_pos h2, countType_cons, countType_cons, ih]
        try rfl
      · rw [if_neg h2]
        by_cases h3 : q.type = PType.PHOTO
        · rw [if_pos h3, countType_cons, countType_cons, ih]
          try rfl
        · rw [if_neg h3]
          by_cases h4 : q.type = PType.STAR ∧ sd = false
          · rw [if_pos h4, countType_cons, countType_cons, ih]
            try rfl
          · rw [if_neg h4, countType_cons, countType_cons, ih]
            try rfl

lemma layoutTreeAux_idem (isMobile : Bool) (cN cS cP : ℕ) (rN : ℕ → ℝ × ℝ)
    (rP : ℕ → ℝ) (l : List Particle) :
    ∀ iN iS iP sd,
      layoutTreeAux isMobile cN cS cP rN rP iN iS iP sd
        (layoutTreeAux isMobile cN cS cP rN rP iN iS iP sd l)
      = layoutTreeAux isMobile cN cS cP rN rP iN iS iP sd l := by
  induction l with
  | nil => intro iN iS iP sd; rfl
  | cons q ps ih =>
    intro iN iS iP sd
    by_cases h1 : q.type = PType.NEEDLE
    · rw [layoutTreeAux, if_pos h1, layoutTreeAux,
        if_pos (show (treeNeedle cN iN (rN iN).1 (rN iN).2 q).type
          = PType.NEEDLE from h1), ih]
      rfl
    · rw [layoutTreeAux, if_neg h1]
      by_cases h2 : q.type = PType.SHAPE
      · rw [if_pos h2, layoutTreeAux,
          if_neg (show ¬(treeShape cS iS q).type = PType.NEEDLE from h1),
          if_pos (show (treeShape cS iS q).type = PType.SHAPE from h2), ih]
        rfl
      · rw [if_neg h2]
        by_cases h3 : q.type = PType.PHOTO
        · rw [if_pos h3, layoutTreeAux,
            if_neg (show ¬(treePhoto isMobile cP iP (rP iP) q).type
              = PType.NEEDLE from h1),
            if_neg (show ¬(treePhoto isMobile cP iP (rP iP) q).type
              = PType.SHAPE from h2),
            if_pos (show (treePhoto isMobile cP iP (rP iP) q).type
              = PType.PHOTO from h3), ih]
          rfl
        · rw [if_neg h3]
          by_cases h4 : q.type = PType.STAR ∧ sd = false
          · rw [if_pos h4, layoutTreeAux, if_neg (by simpa using h1),
              if_neg (by simpa using h2), if_neg (by simpa using h3),
              if_pos (by exact ⟨h4.1, h4.2⟩), ih]
          · rw [if_neg h4, layoutTreeAux, if_neg h1, if_neg h2, if_neg h3,
              if_neg h4, ih]

lemma layoutScatterAux_idem (rnd : ℕ → ℝ × ℝ × ℝ) (l : List Particle) :
    ∀ j, layoutScatterAux rnd j (layoutScatterAux rnd j l)
      = layoutScatterAux rnd j l := by
  induction l with
  | nil => intro j; rfl
  | cons p ps ih =>
    intro j
    rw [layoutScatterAux, layoutScatterAux, ih]

lemma focusPhoto_idem (m : Bool) (fIdx i : ℕ) (rx ry : ℝ) (p : Particle) :
    focusPhoto m fIdx i rx ry (focusPhoto m fIdx i rx ry p)
      = focusPhoto m fIdx i rx ry p := by
  by_cases h : i = fIdx <;> simp [focusPhoto, h]

lemma layoutFocusAux_idem (m : Bool) (fIdx : ℕ) (rnd : ℕ → ℝ × ℝ)
    (l : List Particle) :
    ∀ iP sd, layoutFocusAux m fIdx rnd iP sd (layoutFocusAux m fIdx rnd iP sd l)
      = layoutFocusAux m fIdx rnd iP sd l := by
  induction l with
  | nil => intro iP sd; rfl
  | cons q ps ih =>
    intro iP sd
    by_cases h1 : q.type = PType.PHOTO
    · rw [layoutFocusAux, if_pos h1, layoutFocusAux,
        if_pos (by rw [focusPhoto_type]; exact h1), ih, focusPhoto_idem]
    · rw [layoutFocusAux, if_neg h1]
      by_cases h2 : q.type = PType.STAR ∧ sd = false
      · rw [if_pos h2, layoutFocusAux, if_neg (by simpa using h1),
          if_pos (by exact ⟨h2.1, h2.2⟩), ih]
      · rw [if_neg h2, layoutFocusAux, if_neg h1, if_neg h2, ih]

/-- C9 (amended): each layout pass is a pure function of the pool, the
display class and its explicit random draws — re-invoking it with the same
draws reproduces the targets exactly (it is idempotent).  The intentional
randomness comprises not only the FOCUS photo selection and the SCATTER
shell points but also, in TREE mode, the needle orientation tilts and the
photo ring heights. -/
theorem layout_deterministic_in_draws (isMobile : Bool) (rN : ℕ → ℝ × ℝ)
    (rP : ℕ → ℝ) (rS : ℕ → ℝ × ℝ × ℝ) (focusIdx : ℕ) (rF : ℕ → ℝ × ℝ)
    (pool : List Particle) :
    layoutTree isMobile rN rP (layoutTree isMobile rN rP pool)
        = layoutTree isMobile rN rP pool
    ∧ layoutScatter rS (layoutScatter rS pool) = layoutScatter rS pool
    ∧ layoutFocus isMobile focusIdx rF (layoutFocus isMobile focusIdx rF pool)
        = layoutFocus isMobile focusIdx rF pool := by
  refine ⟨?_, ?_, ?_⟩
  · unfold layoutTree
    rw [countType_layoutTreeAux, countType_layoutTreeAux,
      countType_layoutTreeAux]
    exact layoutTreeAux_idem isMobile _ _ _ rN rP pool 0 0 0 false
  · unfold layoutScatter
    exact layoutScatterAux_idem rS pool 0
  · unfold layoutFocus
    exact layoutFocusAux_idem isMobile focusIdx rF pool 0 false

end ChristmasTree
